import Mathlib

/-!
Verification development for the interpolant-minimization, clausification and
unification-with-abstraction core of the Vampire fork under study.

Part 1 embeds `Shell/InterpolantMinimizer.cpp`: the propositional benchmark
built by `addAllFormulas`/`addNodeFormulas`/`addFringeFormulas`, the
`collectSlicedOffNodes` model reader, the `traverse` bookkeeping
(`leadsToColor`, successor lists, the `processParent` state machine) and the
fallback logic of `getInterpolant`.

Part 2 embeds `vclausify.cpp`: the clausify-mode output loop and the exit-code
discipline of `main`.

Part 3 models the unification-with-abstraction engine.  Its implementation is
not part of the source tree under study (only its unit tests,
`UnitTests/tUnificationWithAbstraction.cpp`, are), so the engine is modelled
from the specification and validated against the concrete expectations of
those tests.
-/

namespace Vampire

/-- Colors of symbols, terms and units (the Kernel `Color` enum). -/
inductive Color where
  | left
  | right
  | transparent
  | invalid
deriving DecidableEq, Repr

/-- The families of propositional constants of the minimization benchmark
(`InterpolantMinimizer::PredType`). -/
inductive PredType where
  | R | B | G | S | RC | BC | RF | BF | D | V
deriving DecidableEq, Repr

/-- A propositional constant `pred(t, node)`; unit-id strings are modelled by
numbers. -/
structure SMTConst where
  ptype : PredType
  node : Nat
deriving DecidableEq, Repr

/-- Shallow embedding of the propositional fragment of `SMTFormula` used by
the minimizer encoding. -/
inductive SMTForm where
  | tru
  | fls
  | atom (c : SMTConst)
  | neg (f : SMTForm)
  | conj (f g : SMTForm)
  | disj (f g : SMTForm)
  | impl (f g : SMTForm)
  | iffF (f g : SMTForm)
deriving DecidableEq, Repr

/-- Evaluation of a benchmark formula under an assignment of the
propositional constants. -/
def SMTForm.eval (v : SMTConst → Bool) : SMTForm → Bool
  | .tru => true
  | .fls => false
  | .atom c => v c
  | .neg f => !(f.eval v)
  | .conj f g => f.eval v && g.eval v
  | .disj f g => f.eval v || g.eval v
  | .impl f g => !(f.eval v) || g.eval v
  | .iffF f g => f.eval v == g.eval v

/-- `pred(t, n)` as a formula. -/
def pred (t : PredType) (n : Nat) : SMTForm := .atom ⟨t, n⟩

/-- The per-unit record assembled by `InterpolantMinimizer::traverse`
(`UnitInfo` plus the unit id and the component ids of `collectAtoms`).
`inputInheritedColor` is the value after the adjustment performed in
`TraverseStackEntry`'s constructor. -/
structure URec where
  uid : Nat
  color : Color
  inputInheritedColor : Color
  leadsToColor : Bool
  isRefutation : Bool
  isParentOfLeft : Bool
  isParentOfRight : Bool
  parents : List Nat
  transparentSuccessors : List Nat
  hasLeftSuccessors : Bool
  hasRightSuccessors : Bool
  atoms : List Nat
deriving DecidableEq, Repr

/-- Look a unit up by its id (the `_infos` map). -/
def findRec (infos : List URec) (uid : Nat) : Option URec :=
  infos.find? (fun r => r.uid == uid)

/-- The classification of a unit's parents built at the start of
`InterpolantMinimizer::addNodeFormulas(UnitSpec)`: parents that do not lead
to color are dropped, the rest are grouped by color. -/
structure ParentSummary where
  rParents : List Nat
  bParents : List Nat
  gParents : List Nat
deriving DecidableEq, Repr

/-- Build the `ParentSummary` of a unit, as the parent loop of
`addNodeFormulas(UnitSpec)` does. -/
def parentSummary (infos : List URec) (u : URec) : ParentSummary :=
  u.parents.foldl
    (fun ps p =>
      match findRec infos p with
      | none => ps
      | some info =>
        if !info.leadsToColor then ps
        else
          match info.color with
          | .left => { ps with rParents := ps.rParents ++ [p] }
          | .right => { ps with bParents := ps.bParents ++ [p] }
          | .transparent => { ps with gParents := ps.gParents ++ [p] }
          | .invalid => ps)
    ⟨[], [], []⟩

/-- The right-hand side of the `RF` fringe definition built by
`addFringeFormulas`: a conjunction over the transparent successors. -/
def rfRhsOf (u : URec) : SMTForm :=
  u.transparentSuccessors.foldl
    (fun acc s => .conj (.conj acc (.disj (pred .RF s) (pred .RC s))) (.neg (pred .BC s)))
    .tru

/-- The right-hand side of the `BF` fringe definition built by
`addFringeFormulas`. -/
def bfRhsOf (u : URec) : SMTForm :=
  u.transparentSuccessors.foldl
    (fun acc s => .conj (.conj acc (.disj (pred .BF s) (pred .BC s))) (.neg (pred .RC s)))
    .tru

/-- The digest definition added first by `addFringeFormulas`:
`D(u) ≡ (RC(u) ∧ ¬RF(u)) ∨ (BC(u) ∧ ¬BF(u))`. -/
def digestEq (n : Nat) : SMTForm :=
  .iffF (pred .D n)
    (.disj (.conj (pred .RC n) (.neg (pred .RF n))) (.conj (pred .BC n) (.neg (pred .BF n))))

/-- `InterpolantMinimizer::addFringeFormulas`. -/
def addFringeFormulas (u : URec) : List SMTForm :=
  let n := u.uid
  if u.isRefutation then
    [digestEq n, .neg (pred .RF n), pred .BF n]
  else
    [digestEq n]
      ++ (if u.hasRightSuccessors then [.neg (pred .RF n)] else [.iffF (pred .RF n) (rfRhsOf u)])
      ++ (if u.hasLeftSuccessors then [.neg (pred .BF n)] else [.iffF (pred .BF n) (bfRhsOf u)])

/-- `InterpolantMinimizer::addDistinctColorsFormula`. -/
def addDistinctColorsFormula (n : Nat) : List SMTForm :=
  let r := pred .R n
  let b := pred .B n
  let g := pred .G n
  [ .conj (.conj (.conj (.disj (.disj b r) g)
      (.impl r (.conj (.neg b) (.neg g))))
      (.impl b (.conj (.neg r) (.neg g))))
      (.impl g (.conj (.neg r) (.neg b))) ]

/-- `InterpolantMinimizer::addGreyNodePropertiesFormula` (all parents
transparent). -/
def addGreyNodePropertiesFormula (n : Nat) (ps : ParentSummary) : List SMTForm :=
  let rParDisj := ps.gParents.foldl (fun acc p => .disj acc (pred .R p)) .fls
  let bParDisj := ps.gParents.foldl (fun acc p => .disj acc (pred .B p)) .fls
  let gParConj := ps.gParents.foldl (fun acc p => .conj acc (pred .G p)) .tru
  let rN := pred .R n
  let bN := pred .B n
  let gN := pred .G n
  let sN := pred .S n
  [ .iffF (pred .RC n) (.conj (.neg sN) rParDisj),
    .iffF (pred .BC n) (.conj (.neg sN) bParDisj),
    .impl rParDisj (.neg bParDisj),
    .impl bParDisj (.neg rParDisj),
    .impl (.conj sN rParDisj) rN,
    .impl (.conj sN bParDisj) bN,
    .impl (.conj sN gParConj) gN,
    .impl (.neg sN) gN ]

/-- `InterpolantMinimizer::addLeafNodePropertiesFormula`. -/
def addLeafNodePropertiesFormula (n : Nat) : List SMTForm :=
  [.neg (pred .S n), pred .G n, pred .D n]

/-- `InterpolantMinimizer::addColoredParentPropertiesFormulas` (parents of
exactly one non-transparent color). -/
def addColoredParentPropertiesFormulas (n : Nat) (ps : ParentSummary) : List SMTForm :=
  let parentIsR := !ps.rParents.isEmpty
  let oppositeType : PredType := if parentIsR then .B else .R
  let gParNegConj := ps.gParents.foldl (fun acc p => .conj acc (.neg (pred oppositeType p))) .tru
  let parN := pred (if parentIsR then .R else .B) n
  let sN := pred .S n
  (if parentIsR then
    [.iffF (pred .RC n) (.neg sN), .neg (pred .BC n)]
  else
    [.iffF (pred .BC n) (.neg sN), .neg (pred .RC n)])
  ++ [ gParNegConj, .impl sN parN, .impl (.neg sN) (pred .G n) ]

/-- `InterpolantMinimizer::addNodeFormulas(string, ParentSummary)`. -/
def addNodeFormulasNP (n : Nat) (ps : ParentSummary) : List SMTForm :=
  addDistinctColorsFormula n
    ++ (if ps.rParents.isEmpty && ps.bParents.isEmpty then
          addGreyNodePropertiesFormula n ps
        else
          addColoredParentPropertiesFormulas n ps)

/-- `InterpolantMinimizer::addAtomImplicationFormula`. -/
def addAtomImplicationFormula (u : URec) : List SMTForm :=
  let cConj := u.atoms.foldl (fun acc a => .conj acc (pred .V a)) .tru
  [.impl (pred .D u.uid) cConj]

/-- `InterpolantMinimizer::addNodeFormulas(UnitSpec)`: all formulas added to
the benchmark for one transparent on-path unit. -/
def addNodeFormulasU (infos : List URec) (noSlicing : Bool) (u : URec) : List SMTForm :=
  let ps := parentSummary infos u
  (if u.inputInheritedColor ≠ .transparent then
    addLeafNodePropertiesFormula u.uid
  else
    addNodeFormulasNP u.uid ps ++ addFringeFormulas u)
  ++ (if noSlicing || u.isRefutation then [.neg (pred .S u.uid)] else [])
  ++ (if u.isParentOfLeft then [.neg (pred .B u.uid)] else [])
  ++ (if u.isParentOfRight then [.neg (pred .R u.uid)] else [])
  ++ addAtomImplicationFormula u

/-- `InterpolantMinimizer::addAllFormulas` (without the arithmetic cost
formula): node formulas are generated exactly for the transparent units that
lead to color. -/
def benchmark (noSlicing : Bool) (infos : List URec) : List SMTForm :=
  infos.flatMap (fun u =>
    if u.color = .transparent ∧ u.leadsToColor = true then
      addNodeFormulasU infos noSlicing u
    else [])

/-- `InterpolantMinimizer::collectSlicedOffNodes`: the transparent
leads-to-color units whose `S` constant is assigned true in the model. -/
def collectSlicedOffNodes (infos : List URec) (v : SMTConst → Bool) : List URec :=
  infos.filter (fun u => u.color = .transparent ∧ u.leadsToColor = true ∧ v ⟨.S, u.uid⟩ = true)

/-- Result of `YicesSolver::minimize` (`SMTSolver::MinimizationResult`). -/
inductive MinimizationResult where
  | fail
  | approximate
  | optimal
deriving DecidableEq, Repr

/-- The warning printed by `getInterpolant` when minimization fails. -/
def failWarning : String :=
  "Minimization timed failed to find a satisfiable assignment, generating basic interpolant"

/-- The note printed when the minimization result is approximate. -/
def approxNote : String := "Minimization gave approximate result"

/-- `InterpolantMinimizer::getInterpolant`, abstracted over the interpolant
generator (`Interpolants(&slicedOff).getInterpolant(refutation)`, which is an
external collaborator): returns the generated interpolant together with the
diagnostics printed to `cerr`.  On `FAIL` the `goto` skips
`collectSlicedOffNodes`, so the generator runs on the empty sliced-off set. -/
def getInterpolantMain {α : Type} (interpolantGen : List URec → α)
    (infos : List URec) (mres : MinimizationResult) (v : SMTConst → Bool) :
    α × List String :=
  match mres with
  | .fail => (interpolantGen [], [failWarning])
  | .approximate => (interpolantGen (collectSlicedOffNodes infos v), [approxNote])
  | .optimal => (interpolantGen (collectSlicedOffNodes infos v), [])

/-!
The proof-DAG traversal (`InterpolantMinimizer::traverse` with
`TraverseStackEntry`).  A proof DAG is a list of nodes in unit-number order;
a node's parents are earlier-numbered units (design note: "parents are always
earlier-numbered Units"), given by their indices.  Since every parent is
fully traversed before a `processParent` call reads its `leadsToColor` flag,
the traversal computes, for each node in order, a value reading only the
already-final values of its parents; the iteration is modelled by a
left-to-right fold that appends one value per node.
-/

/-- A unit of the proof DAG as seen by the traversal: its color
(`Unit::getColor`), its raw inherited color (`Unit::inheritedColor`) and the
indices of its parents (`InferenceStore::getParents`). -/
structure TravNode where
  color : Color
  inheritedColor : Color
  parents : List Nat
deriving DecidableEq, Repr

/-- The node of a DAG at index `i` (any out-of-range default never matters in
the theorems, which carry range bounds). -/
def nodeAt (ns : List TravNode) (i : Nat) : TravNode :=
  ns.getD i ⟨.transparent, .transparent, []⟩

/-- A well-formed proof DAG: parents are earlier-numbered. -/
abbrev WfDag (ns : List TravNode) : Prop :=
  ∀ i, i < ns.length → ∀ p ∈ (nodeAt ns i).parents, p < i

/-- The adjustment of `inputInheritedColor` performed in
`TraverseStackEntry`'s constructor: an `INVALID` inherited color becomes the
unit's own color for leaves (introduced name definitions) and `TRANSPARENT`
otherwise. -/
def adjustInherited (n : TravNode) : Color :=
  if n.inheritedColor = .invalid then
    if n.parents.isEmpty then n.color else .transparent
  else n.inheritedColor

/-- Generic one-value-per-node fold over a DAG prefix: `acc` holds the values
of the already-processed nodes. -/
def buildGo (step : List Bool → TravNode → Bool) : List Bool → List TravNode → List Bool
  | acc, [] => acc
  | acc, n :: rest => buildGo step (acc ++ [step acc n]) rest

/-- Values of `step` for every node of the DAG, computed in unit-number
order. -/
def buildL (step : List Bool → TravNode → Bool) (ns : List TravNode) : List Bool :=
  buildGo step [] ns

/-- One node's `leadsToColor`: initialised in `TraverseStackEntry`'s
constructor from the unit's color and adjusted inherited color, then or-ed
with each parent's final flag by `processParent`. -/
def ltcStep (acc : List Bool) (n : TravNode) : Bool :=
  decide (n.color ≠ .transparent) || decide (adjustInherited n ≠ .transparent)
    || n.parents.any (fun p => acc.getD p false)

/-- The `leadsToColor` flags of all nodes after the traversal. -/
def leadsToColorList (ns : List TravNode) : List Bool :=
  buildL ltcStep ns

/-- Whether the node at index `i` has an ancestor (a parent, or transitively
a parent's ancestor) of color `c`; used to state the spec's color
invariants. -/
def ancStep (ns : List TravNode) (c : Color) (acc : List Bool) (n : TravNode) : Bool :=
  n.parents.any (fun p => decide ((nodeAt ns p).color = c) || acc.getD p false)

/-- The has-ancestor-of-color flags of all nodes. -/
def ancColor (ns : List TravNode) (c : Color) : List Bool :=
  buildL (ancStep ns c) ns

/-- The colors of a node's parents, in parent-iteration order. -/
def parentColorsAt (ns : List TravNode) (i : Nat) : List Color :=
  (nodeAt ns i).parents.map (fun p => (nodeAt ns p).color)

/-- The `UnitInfo::state` tracked by `processParent`
(`NO_PARENT` / `HAS_LEFT_PARENT` / `HAS_RIGHT_PARENT`). -/
inductive ParentState where
  | unset
  | hasLeft
  | hasRight
deriving DecidableEq, Repr

/-- One `processParent` call of `TraverseStackEntry`: a LEFT parent asserts
the state is not `HAS_RIGHT_PARENT` and records `HAS_LEFT_PARENT`;
symmetrically for RIGHT.  A firing assertion is modelled as `none`. -/
def processParentStep (st : ParentState) (pcol : Color) : Option ParentState :=
  match pcol with
  | .left => if st = .hasRight then none else some .hasLeft
  | .right => if st = .hasLeft then none else some .hasRight
  | _ => some st

/-- All `processParent` calls received by one unit during the traversal, one
per parent. -/
def processParents : ParentState → List Color → Option ParentState
  | st, [] => some st
  | st, c :: cols =>
    match processParentStep st c with
    | none => none
    | some st' => processParents st' cols

end Vampire

namespace VClausify

/-!
Embedding of `vclausify.cpp`: the clausify-mode loop and the return-value
discipline of `main`.  Clauses, the three immediate simplification engines
and the TPTP serializer are external collaborators and are abstracted as
parameters; `CompositeISE` (not part of the sources under study) is modelled
from the spec as the sequential application of its engines, where a deleted
clause is `none`.
-/

/-- The mode selected on the command line (`Options::Mode`); only the
clausify mode matters to `vclausify`. -/
inductive VMode where
  | clausify
  | other
deriving DecidableEq, Repr

/-- The exceptions `main` catches. -/
inductive VExc where
  | userError
  | otherException
  | badAlloc
deriving DecidableEq, Repr

/-- Outcome of reading, preprocessing and clausifying the input
(`getProblemClauses` and the iteration of its result): either the clause
list, or a thrown exception. -/
inductive RunOutcome (Clause : Type) where
  | ok (clauses : List Clause)
  | exc (e : VExc)

/-- Modelled from the spec: `CompositeISE::simplify` with the three engines
installed by `clausifyMode` — `DuplicateLiteralRemovalISE`,
`TautologyDeletionISE`, `TrivialInequalitiesRemovalISE` (each `addFront`
call puts its engine in front of the previously added ones); a `none` result
is a deleted clause. -/
def compositeSimplify {Clause : Type}
    (dup taut triv : Clause → Option Clause) (cl : Clause) : Option Clause :=
  (dup cl).bind (fun c1 => (taut c1).bind triv)

/-- The output loop of `clausifyMode`: simplify each clause, skip it if the
simplifier deleted it, otherwise print its TPTP form. -/
def clausifyLoop {Clause : Type} (simplify : Clause → Option Clause)
    (toTPTP : Clause → String) : List Clause → List String
  | [] => []
  | cl :: rest =>
    match simplify cl with
    | none => clausifyLoop simplify toTPTP rest
    | some c => toTPTP c :: clausifyLoop simplify toTPTP rest

/-- `clausifyMode`: the lines printed for the given problem clauses. -/
def clausifyModeOutput {Clause : Type} (dup taut triv : Clause → Option Clause)
    (toTPTP : Clause → String) (clauses : List Clause) : List String :=
  clausifyLoop (compositeSimplify dup taut triv) toTPTP clauses

/-- The output printed for a caught exception (`explainException`, the
statistics block, or the bad-alloc message); its exact content is immaterial
to the return value. -/
def excOutput (e : VExc) : List String :=
  match e with
  | .userError => ["User error"]
  | .otherException => ["Exception", "Statistics"]
  | .badAlloc => ["Insufficient system memory"]

/-- `main` of `vclausify.cpp`: `vampireReturnValue` starts at 1; any mode
other than clausify raises a user error; `clausifyMode` sets the return
value to 0 only after all clauses were output; every caught exception leaves
the initial value 1.  Returns the exit code and the output lines. -/
def vclausifyMain {Clause : Type} (mode : VMode) (outcome : RunOutcome Clause)
    (dup taut triv : Clause → Option Clause) (toTPTP : Clause → String) :
    Nat × List String :=
  if mode ≠ .clausify then (1, excOutput .userError)
  else
    match outcome with
    | .ok clauses => (0, clausifyModeOutput dup taut triv toTPTP clauses)
    | .exc e => (1, excOutput e)

end VClausify

namespace Uwa

/-!
Unification with abstraction (`AbstractingUnifier::unify` with
`MismatchHandler`, and the uwa retrieval of the term substitution tree).
The engine's implementation is not among the sources under study — only its
unit tests are — so the definitions below are modelled from the spec (§4.C,
§4.D) and validated against the concrete expectations recorded in
`UnitTests/tUnificationWithAbstraction.cpp`.  Recursions are driven by an
explicit fuel so that every function evaluates by kernel reduction; the fuel
is generous for every concrete instance considered.
-/

/-- Modelled from the spec (§3): a term is a variable (identifier plus bank)
or a function application; the interpreted arithmetic signature is an integer
numeral and the binary AC sum `+`, uninterpreted applications have the
arities exercised by the repository's tests. -/
inductive Trm where
  | var (bank idx : Nat)
  | num (k : Int)
  | cst (f : Nat)
  | app1 (f : Nat) (a : Trm)
  | app2 (f : Nat) (a b : Trm)
  | add (a b : Trm)
deriving DecidableEq, Repr

/-- Modelled from the spec (§4.C): the abstraction policies
(`Options::UnificationWithAbstraction`); `AC2` and `FUNC_EXT` are not needed
by the claims under study and are omitted. -/
inductive Policy where
  | off
  | interpOnly
  | oneInterp
  | ac1
deriving DecidableEq, Repr

/-- A substitution: a partial map from `(bank, variable-id)` to terms,
newest binding first. -/
abbrev Subst : Type := List ((Nat × Nat) × Trm)

/-- Look up the binding of variable `(b, i)`. -/
def lookupV (σ : Subst) (b i : Nat) : Option Trm :=
  (σ.find? (fun e => e.1 == (b, i))).map (fun e => e.2)

/-- Follow top-level variable bindings (the `derefBound` of
`RobSubstitution`). -/
def derefTop (σ : Subst) : Nat → Trm → Trm
  | 0, t => t
  | fuel + 1, t =>
    match t with
    | .var b i =>
      match lookupV σ b i with
      | some u => derefTop σ fuel u
      | none => t
    | _ => t

/-- Apply a substitution exhaustively (`RobSubstitution::apply`). -/
def applyS (σ : Subst) : Nat → Trm → Trm
  | 0, t => t
  | fuel + 1, t =>
    match t with
    | .var b i =>
      match lookupV σ b i with
      | some u => applyS σ fuel u
      | none => t
    | .num k => .num k
    | .cst f => .cst f
    | .app1 f a => .app1 f (applyS σ fuel a)
    | .app2 f a b => .app2 f (applyS σ fuel a) (applyS σ fuel b)
    | .add a b => .add (applyS σ fuel a) (applyS σ fuel b)

/-- Occurs check through the substitution: does `(b, i)` occur in the term
once bindings are expanded?  Runs out of fuel conservatively to `true`. -/
def occursIn (σ : Subst) (v : Nat × Nat) : Nat → Trm → Bool
  | 0, _ => true
  | fuel + 1, t =>
    match t with
    | .var b i =>
      if (b, i) = v then true
      else
        match lookupV σ b i with
        | some u => occursIn σ v fuel u
        | none => false
    | .num _ => false
    | .cst _ => false
    | .app1 _ a => occursIn σ v fuel a
    | .app2 _ a b => occursIn σ v fuel a || occursIn σ v fuel b
    | .add a b => occursIn σ v fuel a || occursIn σ v fuel b

/-- A theory-interpreted root: the sum or a numeral. -/
def interpTop : Trm → Bool
  | .num _ => true
  | .add _ _ => true
  | _ => false

/-- Is the term a variable? -/
def isVarT : Trm → Bool
  | .var _ _ => true
  | _ => false

/-- Is the root the AC sum? -/
def isAddT : Trm → Bool
  | .add _ _ => true
  | _ => false

/-- Flatten a sum into its list of non-sum summands, dereferencing bound
variables on the way (the `AcIter` of the AC1 handler). -/
def flattenAC (σ : Subst) : Nat → Trm → List Trm
  | 0, t => [t]
  | fuel + 1, t =>
    match t with
    | .add a b => flattenAC σ fuel a ++ flattenAC σ fuel b
    | .var b i =>
      match lookupV σ b i with
      | some u => flattenAC σ fuel u
      | none => [t]
    | _ => [t]

/-- Rebuild a sum from a non-empty summand list (left-associated). -/
def sumT : List Trm → Trm
  | [] => .num 0
  | t :: rest => rest.foldl .add t

/-- The state of an abstracting unification: the substitution and the
residual constraint pairs (each standing for a disequality literal). -/
structure UState where
  σ : Subst
  cs : List (Trm × Trm)

instance : DecidableEq UState := fun a b =>
  decidable_of_iff (a.σ = b.σ ∧ a.cs = b.cs)
    (by cases a; cases b; simp)

/-- Modelled from the spec (§4.C): the core abstracting unification on a
stack of goal pairs.  Argument pairs of a decomposed application are pushed
left to right and popped last first.  A mismatch of two non-variable terms
consults the policy: `ONE_INTERP` abstracts into a residual constraint when
at least one root is interpreted; `AC1` additionally flattens two sums,
cancels the syntactically shared summands and keeps a single constraint of
the two residues when a variable is among them (residues without variables
can never become equal, and a one-sided residue is unsatisfiable).  The
occurs check is always performed on the syntactic part. -/
def unifyGo (pol : Policy) : Nat → List (Trm × Trm) → UState → Option UState
  | 0, _, _ => none
  | fuel + 1, goals, st =>
    match goals with
    | [] => some st
    | (s, t) :: rest =>
      let s' := derefTop st.σ (fuel + 1) s
      let t' := derefTop st.σ (fuel + 1) t
      if s' = t' then unifyGo pol fuel rest st
      else
        match s', t' with
        | .var b i, u =>
          if occursIn st.σ (b, i) (fuel + 1) u then none
          else unifyGo pol fuel rest ⟨((b, i), u) :: st.σ, st.cs⟩
        | u, .var b i =>
          if occursIn st.σ (b, i) (fuel + 1) u then none
          else unifyGo pol fuel rest ⟨((b, i), u) :: st.σ, st.cs⟩
        | s', t' =>
          let pushC : Option UState :=
            unifyGo pol fuel rest ⟨st.σ, st.cs ++ [(s', t')]⟩
          let decompose : Option UState :=
            match s', t' with
            | .app1 f a, .app1 g b =>
              if f = g then unifyGo pol fuel ((a, b) :: rest) st else none
            | .app2 f a1 a2, .app2 g b1 b2 =>
              if f = g then unifyGo pol fuel ((a2, b2) :: (a1, b1) :: rest) st else none
            | .add a1 a2, .add b1 b2 =>
              unifyGo pol fuel ((a2, b2) :: (a1, b1) :: rest) st
            | _, _ => none
          let acStep : Option UState :=
            let l1 := flattenAC st.σ (fuel + 1) s'
            let l2 := flattenAC st.σ (fuel + 1) t'
            let d1 := l1.diff l2
            let d2 := l2.diff l1
            if d1.isEmpty && d2.isEmpty then unifyGo pol fuel rest st
            else if d1.isEmpty || d2.isEmpty then none
            else if (d1 ++ d2).any isVarT then
              unifyGo pol fuel rest ⟨st.σ, st.cs ++ [(sumT d1, sumT d2)]⟩
            else none
          match pol with
          | .off => decompose
          | .interpOnly => if interpTop s' && interpTop t' then pushC else decompose
          | .oneInterp => if interpTop s' || interpTop t' then pushC else decompose
          | .ac1 =>
            if isAddT s' && isAddT t' then acStep
            else if interpTop s' || interpTop t' then pushC
            else decompose

/-- Modelled from the spec (§4.C): the fixed-point pass over the residual
constraints (`run_fixed_point = true`): each constraint's sides are
re-unified under the grown substitution; a failed re-unification fails the
whole unification, an unchanged constraint is kept, and any other result
replaces the constraint by its refined residues. -/
def fixedPointGo (pol : Policy) : Nat → List (Trm × Trm) → List (Trm × Trm) → Subst → Option UState
  | 0, _, _, _ => none
  | fuel + 1, todo, done, σ =>
    match todo with
    | [] => some ⟨σ, done⟩
    | (l, r) :: todo' =>
      match unifyGo pol (fuel + 1) [(l, r)] ⟨σ, []⟩ with
      | none => none
      | some st' =>
        if st'.σ = σ ∧ st'.cs = [(l, r)] then
          fixedPointGo pol fuel todo' (done ++ [(l, r)]) σ
        else
          fixedPointGo pol fuel (st'.cs ++ todo') done st'.σ

/-- Fuel large enough for every concrete instance considered below. -/
def bigFuel : Nat := 64

/-- Modelled from the spec (§4.C):
`AbstractingUnifier::unify(a, bank_a, b, bank_b, MismatchHandler(pol), fixp)`
(banks are carried inside the variables). -/
def absUnify (pol : Policy) (fixp : Bool) (a b : Trm) : Option UState :=
  match unifyGo pol bigFuel [(a, b)] ⟨[], []⟩ with
  | none => none
  | some st =>
    if fixp then fixedPointGo pol bigFuel st.cs [] st.σ else some st

/-- The shape of one unification result reported by the tests
(`UnificationResultSpec`): the two instantiated sides and the constraint
literals under the final substitution. -/
structure URes where
  querySigma : Trm
  resultSigma : Trm
  constraints : List (Trm × Trm)
deriving DecidableEq, Repr

/-- `runRobUnify` of the unit tests: unify and report both sides and the
constraints with the substitution applied
(`computeConstraintLiterals`). -/
def runRobUnify (pol : Policy) (fixp : Bool) (a b : Trm) : Option URes :=
  (absUnify pol fixp a b).map (fun st =>
    ⟨applyS st.σ bigFuel a, applyS st.σ bigFuel b,
     st.cs.map (fun c => (applyS st.σ bigFuel c.1, applyS st.σ bigFuel c.2))⟩)

/-- Move every variable of a term into the given bank (the result bank of
the index, keeping query and result variables apart). -/
def setBank (bk : Nat) : Trm → Trm
  | .var _ i => .var bk i
  | .num k => .num k
  | .cst f => .cst f
  | .app1 f a => .app1 f (setBank bk a)
  | .app2 f a b => .app2 f (setBank bk a) (setBank bk b)
  | .add a b => .add (setBank bk a) (setBank bk b)

/-- Modelled from the spec (§4.D): `retrieve_unifiable` — the substitution
tree yields, for a query, every indexed term that abstractingly unifies with
it, with the unifier's instances and constraints (`getUwa`).  Query
variables live in bank 0, indexed-term variables in bank 1. -/
def retrieveUnifiable (pol : Policy) (fixp : Bool) (idx : List Trm) (q : Trm) : List URes :=
  idx.filterMap (fun tI =>
    (absUnify pol fixp q (setBank 1 tI)).map (fun st =>
      ⟨applyS st.σ bigFuel q, applyS st.σ bigFuel (setBank 1 tI),
       st.cs.map (fun c => (applyS st.σ bigFuel c.1, applyS st.σ bigFuel c.2))⟩))

/-- A total comparison on terms, used only to sort summand lists for the
AC-normal form. -/
def cmpT : Trm → Trm → Ordering
  | .var b i, .var b' i' => (compare b b').then (compare i i')
  | .var _ _, _ => .lt
  | _, .var _ _ => .gt
  | .num k, .num k' => compare k k'
  | .num _, _ => .lt
  | _, .num _ => .gt
  | .cst f, .cst f' => compare f f'
  | .cst _, _ => .lt
  | _, .cst _ => .gt
  | .app1 f a, .app1 f' a' => (compare f f').then (cmpT a a')
  | .app1 _ _, _ => .lt
  | _, .app1 _ _ => .gt
  | .app2 f a b, .app2 f' a' b' => ((compare f f').then (cmpT a a')).then (cmpT b b')
  | .app2 _ _ _, _ => .lt
  | _, .app2 _ _ _ => .gt
  | .add a b, .add a' b' => (cmpT a a').then (cmpT b b')

/-- Insert into a `cmpT`-sorted list. -/
def insT (x : Trm) : List Trm → List Trm
  | [] => [x]
  | y :: ys => if cmpT x y = .gt then y :: insT x ys else x :: y :: ys

/-- Insertion sort by `cmpT`. -/
def sortT (l : List Trm) : List Trm :=
  l.foldr insT []

/-- The left spine of summands of an AC-normalised sum. -/
def summands : Trm → List Trm
  | .add a b => summands a ++ [b]
  | t => [t]

/-- AC-normal form: sums are flattened and their summands sorted, so that
two terms are equal modulo associativity-commutativity of `+` (the
`eqModAC` of the tests) iff their normal forms coincide. -/
def normAC : Trm → Trm
  | .var b i => .var b i
  | .num k => .num k
  | .cst f => .cst f
  | .app1 f a => .app1 f (normAC a)
  | .app2 f a b => .app2 f (normAC a) (normAC b)
  | .add a b => sumT (sortT (summands (normAC a) ++ summands (normAC b)))

/-- Equality modulo AC of `+`. -/
def eqACb (s t : Trm) : Bool := normAC s == normAC t

/-- Equality of constraint disequalities: modulo AC on both sides and modulo
orientation. -/
def cpEq (p q : Trm × Trm) : Bool :=
  (eqACb p.1 q.1 && eqACb p.2 q.2) || (eqACb p.1 q.2 && eqACb p.2 q.1)

/-- Remove the first element related to `x`, if any. -/
def extractBy {α : Type} (f : α → α → Bool) (x : α) : List α → Option (List α)
  | [] => none
  | y :: ys => if f x y then some ys else (extractBy f x ys).map (fun l => y :: l)

/-- Multiset equality of two lists up to the relation `f` (the `permEq` of
the tests). -/
def permEqBy {α : Type} (f : α → α → Bool) : List α → List α → Bool
  | [], [] => true
  | [], _ :: _ => false
  | x :: xs, ys =>
    match extractBy f x ys with
    | none => false
    | some ys' => permEqBy f xs ys'

/-- Equality of two unification results as the tests compare them: both
instances modulo AC, the constraint sets as multisets modulo AC and
orientation. -/
def uresEq (r e : URes) : Bool :=
  eqACb r.querySigma e.querySigma && eqACb r.resultSigma e.resultSigma
    && permEqBy cpEq r.constraints e.constraints

/-- Constraint pairs permitted by the `ONE_INTERP` policy (spec §4.C: a
mismatch is abstracted iff at least one root is theory-interpreted). -/
def PermittedOneInterp (p : Trm × Trm) : Prop :=
  interpTop p.1 = true ∨ interpTop p.2 = true

/-- Spec §4.C contract: two terms are equal modulo a constraint set `C` when
they are syntactically equal after removing subterm pairs corresponding to
disequalities of `C` (in either orientation). -/
inductive EqMod (C : List (Trm × Trm)) : Trm → Trm → Prop
  | refl (t : Trm) : EqMod C t t
  | constr {s t : Trm} : (s, t) ∈ C → EqMod C s t
  | constrR {s t : Trm} : (t, s) ∈ C → EqMod C s t
  | app1 {f : Nat} {a b : Trm} : EqMod C a b → EqMod C (.app1 f a) (.app1 f b)
  | app2 {f : Nat} {a1 a2 b1 b2 : Trm} :
      EqMod C a1 b1 → EqMod C a2 b2 → EqMod C (.app2 f a1 a2) (.app2 f b1 b2)
  | add {a1 a2 b1 b2 : Trm} :
      EqMod C a1 b1 → EqMod C a2 b2 → EqMod C (.add a1 a2) (.add b1 b2)

/-- The pair `(a, b)` is unifiable under some extension permitted by
`ONE_INTERP`: some substitution and some permitted residual constraint set
make the two sides equal modulo the constraints. -/
def ExtUnifiableOneInterp (a b : Trm) : Prop :=
  ∃ (σ : Subst) (C : List (Trm × Trm)),
    (∀ p ∈ C, PermittedOneInterp p) ∧ EqMod C (applyS σ bigFuel a) (applyS σ bigFuel b)

end Uwa

namespace Vampire

/-!
Statements of the claims under study that the code refutes, for a given
concrete input, together with the concrete instances used below.
-/

/-- Claim C3 as stated, for a given proof DAG: after the traversal,
`leadsToColor(u)` holds iff `color(u)` is not transparent or some parent
leads to color — and nothing else makes it true. -/
abbrev C3Statement (ns : List TravNode) : Prop :=
  WfDag ns → ∀ i, i < ns.length →
    ((leadsToColorList ns).getD i false = true ↔
      ((nodeAt ns i).color ≠ .transparent ∨
        ∃ p ∈ (nodeAt ns i).parents, (leadsToColorList ns).getD p false = true))

/-- Claim C7 as stated, for a given info map: for every transparent unit on a
path to color, the benchmark defines `RF(u)` (resp. `BF(u)`) by the
equivalence with the conjunction over the transparent successors, except at
the refutation where `¬RF ∧ BF` is asserted. -/
abbrev C7Statement (noSlicing : Bool) (infos : List URec) : Prop :=
  ∀ u ∈ infos, u.color = .transparent → u.leadsToColor = true →
    (if u.isRefutation then
      SMTForm.neg (pred .RF u.uid) ∈ benchmark noSlicing infos ∧
        pred .BF u.uid ∈ benchmark noSlicing infos
    else
      SMTForm.iffF (pred .RF u.uid) (rfRhsOf u) ∈ benchmark noSlicing infos ∧
        SMTForm.iffF (pred .BF u.uid) (bfRhsOf u) ∈ benchmark noSlicing infos)

/-- Claim C8 as stated, for a given proof DAG: under the precondition that no
unit has ancestors of both colors unless it is transparent, the
`processParent` assertion never fires. -/
abbrev C8Statement (ns : List TravNode) : Prop :=
  WfDag ns →
  (∀ i, i < ns.length → (nodeAt ns i).color ≠ .transparent →
    ¬((ancColor ns .left).getD i false = true ∧ (ancColor ns .right).getD i false = true)) →
  ∀ i, i < ns.length → processParents .unset (parentColorsAt ns i) ≠ none

/-- A transparent input unit marked colored in the TPTP problem (inherited
color LEFT) but containing no colored symbols: the leaf case of
`addNodeFormulas`. -/
def exC3 : List TravNode := [⟨.transparent, .left, []⟩]

/-- A LEFT axiom with one transparent consequence. -/
def wC3 : List TravNode := [⟨.left, .transparent, []⟩, ⟨.transparent, .transparent, [0]⟩]

/-- A transparent unit derived from one LEFT and one RIGHT premise: the
claimed precondition of C8 exempts it, yet `processParent` asserts on it. -/
def exC8 : List TravNode :=
  [⟨.left, .transparent, []⟩, ⟨.right, .transparent, []⟩, ⟨.transparent, .transparent, [0, 1]⟩]

/-- A RIGHT axiom with one transparent consequence. -/
def wC8 : List TravNode := [⟨.right, .transparent, []⟩, ⟨.transparent, .transparent, [0]⟩]

/-- A one-unit refutation info map: the refutation is transparent, leads to
color, and has no parents. -/
def wC2infos : List URec :=
  [⟨0, .transparent, .transparent, true, true, false, false, [], [], false, false, [0]⟩]

/-- A model of the benchmark of `wC2infos`: grey trace, not sliced, on the
blue fringe. -/
def wC2v : SMTConst → Bool := fun c =>
  match c.ptype with
  | .G => true
  | .BF => true
  | _ => false

/-- A proof chain RIGHT axiom → transparent unit (with a RIGHT-colored
further consequence) → RIGHT unit → transparent refutation.  Unit 1 is
transparent, on a path to color, and has a RIGHT successor. -/
def exC7 : List URec :=
  [⟨0, .right, .right, true, false, false, false, [], [], false, false, [0]⟩,
   ⟨1, .transparent, .transparent, true, false, false, true, [0], [], false, true, [1]⟩,
   ⟨2, .right, .transparent, true, false, false, false, [1], [], false, false, [2]⟩,
   ⟨3, .transparent, .transparent, true, true, false, false, [2], [], false, false, [3]⟩]

end Vampire

namespace Uwa

/-- `f2(x, a + x)` (query side of the AC1 fixed-point counterexample,
`over_approx_test_2_bad`). -/
def c1L : Trm := .app2 12 (.var 0 0) (.add (.cst 0) (.var 0 0))

/-- `f2(c, b + a)`. -/
def c1R : Trm := .app2 12 (.cst 2) (.add (.cst 1) (.cst 0))

/-- `f2(f2(y, x), a + y + x)` (the `bottom_constraint_test_1_bad` pair whose
constraint the fixed-point pass eliminates). -/
def c1L2 : Trm :=
  .app2 12 (.app2 12 (.var 0 1) (.var 0 0)) (.add (.add (.cst 0) (.var 0 1)) (.var 0 0))

/-- `f2(f2(b, c), c + b + a)`. -/
def c1R2 : Trm :=
  .app2 12 (.app2 12 (.cst 1) (.cst 2)) (.add (.add (.cst 2) (.cst 1)) (.cst 0))

/-- The indexed terms of scenario S3: `1 + 1` and `1 + a`. -/
def s3Index : List Trm := [.add (.num 1) (.num 1), .add (.num 1) (.cst 0)]

/-- The S3 query `b + 2`. -/
def s3Query : Trm := .add (.cst 1) (.num 2)

/-- The S3 expected results: `(2+b, 1+a, {1+a ≠ 2+b})` and
`(2+b, 1+1, {2+b ≠ 1+1})`. -/
def s3Expected : List URes :=
  [⟨.add (.num 2) (.cst 1), .add (.num 1) (.cst 0),
     [(.add (.num 1) (.cst 0), .add (.num 2) (.cst 1))]⟩,
   ⟨.add (.num 2) (.cst 1), .add (.num 1) (.num 1),
     [(.add (.num 2) (.cst 1), .add (.num 1) (.num 1))]⟩]

/-- The S2 index: `f(1+1)` and `f(1+a)`. -/
def s2Index : List Trm := [.app1 10 (.add (.num 1) (.num 1)), .app1 10 (.add (.num 1) (.cst 0))]

/-- The S2 query `g(x)`. -/
def s2Query : Trm := .app1 11 (.var 0 0)

end Uwa

/-!
Theorems.  Helper lemmas are shared; each claim has exactly one theorem,
together with its witness or counterexample where required.
-/

namespace Vampire

theorem buildGo_length (step : List Bool → TravNode → Bool) :
    ∀ (ns : List TravNode) (acc : List Bool),
      (buildGo step acc ns).length = acc.length + ns.length := by
  intro ns
  induction ns with
  | nil => intro acc; simp [buildGo]
  | cons n rest ih =>
    intro acc
    rw [buildGo, ih]
    simp
    omega

theorem buildGo_getD_of_lt (step : List Bool → TravNode → Bool) :
    ∀ (ns : List TravNode) (acc : List Bool) (i : Nat), i < acc.length →
      (buildGo step acc ns).getD i false = acc.getD i false := by
  intro ns
  induction ns with
  | nil => intro acc i _; rfl
  | cons n rest ih =>
    intro acc i hi
    rw [buildGo, ih (acc ++ [step acc n]) i (by simp; omega)]
    exact List.getD_append _ _ _ _ hi

theorem buildGo_split (step : List Bool → TravNode → Bool) :
    ∀ (ns1 ns2 : List TravNode) (acc : List Bool),
      buildGo step acc (ns1 ++ ns2) = buildGo step (buildGo step acc ns1) ns2 := by
  intro ns1
  induction ns1 with
  | nil => intro ns2 acc; rfl
  | cons n rest ih => intro ns2 acc; rw [List.cons_append, buildGo, buildGo, ih]

theorem buildL_take_length (step : List Bool → TravNode → Bool) (ns : List TravNode)
    (i : Nat) (hi : i ≤ ns.length) : (buildL step (ns.take i)).length = i := by
  rw [buildL, buildGo_length]
  simp [Nat.min_eq_left hi]

theorem buildL_entry (step : List Bool → TravNode → Bool) (ns : List TravNode)
    (i : Nat) (hi : i < ns.length) :
    (buildL step ns).getD i false = step (buildL step (ns.take i)) (nodeAt ns i) := by
  have hsplit : ns = ns.take i ++ ns.drop i := (List.take_append_drop i ns).symm
  have hdrop : ns.drop i = nodeAt ns i :: ns.drop (i + 1) := by
    rw [List.drop_eq_getElem_cons hi]
    congr 1
    rw [nodeAt, List.getD_eq_getElem _ _ hi]
  have hlen : (buildL step (ns.take i)).length = i :=
    buildL_take_length step ns i (Nat.le_of_lt hi)
  have hA : buildGo step [] (ns.take i) = buildL step (ns.take i) := rfl
  have hmain : buildL step ns
      = buildGo step (buildL step (ns.take i)) (ns.drop i) := by
    conv_lhs => rw [hsplit]
    rw [buildL, buildGo_split, hA]
  rw [hmain, hdrop, buildGo]
  rw [buildGo_getD_of_lt step _ _ i (by rw [List.length_append, hlen]; simp)]
  rw [List.getD_append_right _ _ _ _ (Nat.le_of_eq hlen), hlen]
  simp

theorem buildL_take_getD (step : List Bool → TravNode → Bool) (ns : List TravNode)
    (i p : Nat) (hp : p < i) (hi : i ≤ ns.length) :
    (buildL step (ns.take i)).getD p false = (buildL step ns).getD p false := by
  have hA : buildGo step [] (ns.take i) = buildL step (ns.take i) := rfl
  have hmain : buildL step ns
      = buildGo step (buildL step (ns.take i)) (ns.drop i) := by
    conv_lhs => rw [← List.take_append_drop i ns]
    rw [buildL, buildGo_split, hA]
  rw [hmain,
    buildGo_getD_of_lt step _ _ p (by rw [buildL_take_length step ns i hi]; exact hp)]

/-- Claim C3, amended: after the traversal, `leadsToColor(u)` holds iff the
unit's color is not transparent, or its (adjusted) input inherited color is
not transparent, or some parent leads to color.  The inherited color is the
third source that the claim omits. -/
theorem c3_leads_to_color_amended (ns : List TravNode) (hwf : WfDag ns)
    (i : Nat) (hi : i < ns.length) :
    (leadsToColorList ns).getD i false = true ↔
      ((nodeAt ns i).color ≠ .transparent ∨ adjustInherited (nodeAt ns i) ≠ .transparent ∨
        ∃ p ∈ (nodeAt ns i).parents, (leadsToColorList ns).getD p false = true) := by
  have hpar : ∀ p ∈ (nodeAt ns i).parents,
      (buildL ltcStep (ns.take i)).getD p false = (leadsToColorList ns).getD p false :=
    fun p hp => buildL_take_getD ltcStep ns i p (hwf i hi p hp) (Nat.le_of_lt hi)
  rw [leadsToColorList, buildL_entry ltcStep ns i hi, ltcStep]
  simp only [Bool.or_eq_true, decide_eq_true_eq, List.any_eq_true]
  constructor
  · rintro ((h | h) | ⟨p, hp, h⟩)
    · exact Or.inl h
    · exact Or.inr (Or.inl h)
    · exact Or.inr (Or.inr ⟨p, hp, by rw [← leadsToColorList, ← hpar p hp]; exact h⟩)
  · rintro (h | h | ⟨p, hp, h⟩)
    · exact Or.inl (Or.inl h)
    · exact Or.inl (Or.inr h)
    · exact Or.inr ⟨p, hp, by rw [hpar p hp]; exact h⟩

/-- Witness for the amended C3 theorem: in the chain LEFT axiom →
transparent unit, the transparent unit leads to color because its parent
does. -/
theorem c3_leads_to_color_amended_witness :
    (leadsToColorList wC3).getD 1 false = true :=
  (c3_leads_to_color_amended wC3 (by decide) 1 (by decide)).mpr
    (Or.inr (Or.inr ⟨0, by decide, by decide⟩))

/-- Counterexample to claim C3 as stated: a transparent input unit with
inherited color LEFT and no parents gets `leadsToColor = true` from its
inherited color alone, while the claim's right-hand side is false. -/
theorem c3_counterexample : ¬ C3Statement exC3 := by decide

end Vampire

namespace Vampire

theorem processParents_none_iff :
    ∀ (cols : List Color) (st : ParentState),
      processParents st cols = none ↔
        ((st = .unset ∧ Color.left ∈ cols ∧ Color.right ∈ cols) ∨
         (st = .hasLeft ∧ Color.right ∈ cols) ∨
         (st = .hasRight ∧ Color.left ∈ cols)) := by
  intro cols
  induction cols with
  | nil => intro st; simp [processParents]
  | cons c rest ih =>
    intro st
    cases st <;> cases c <;>
      simp [processParents, processParentStep, ih]

/-- Claim C8, amended: the `processParent` assertion fires on a unit exactly
when the unit has both a LEFT-colored and a RIGHT-colored direct parent;
under the precondition that no unit — transparent or not — has direct
parents of both colors, it never fires. -/
theorem c8_assertion_amended (ns : List TravNode)
    (hpre : ∀ i, i < ns.length →
      ¬(Color.left ∈ parentColorsAt ns i ∧ Color.right ∈ parentColorsAt ns i))
    (i : Nat) (hi : i < ns.length) :
    processParents .unset (parentColorsAt ns i) ≠ none := by
  intro h
  rw [processParents_none_iff] at h
  rcases h with ⟨_, hl, hr⟩ | ⟨h, _⟩ | ⟨h, _⟩
  · exact hpre i hi ⟨hl, hr⟩
  · exact ParentState.noConfusion h
  · exact ParentState.noConfusion h

/-- Witness for the amended C8 theorem: a RIGHT axiom with one transparent
consequence satisfies the direct-parent precondition, and no assertion
fires. -/
theorem c8_assertion_amended_witness :
    processParents .unset (parentColorsAt wC8 1) ≠ none :=
  c8_assertion_amended wC8 (by decide) 1 (by decide)

/-- Counterexample to claim C8 as stated: a transparent unit with one LEFT
and one RIGHT parent satisfies the claim's precondition (it is exempted as
transparent, and no unit has non-transparent color with two-colored
ancestors), yet `processParent` fires its assertion on it. -/
theorem c8_counterexample : ¬ C8Statement exC8 := by decide

end Vampire

namespace Vampire

theorem mem_benchmark_of_mem_node (noSlicing : Bool) (infos : List URec) (u : URec)
    (hu : u ∈ infos) (hc : u.color = .transparent) (hl : u.leadsToColor = true)
    (f : SMTForm) (hf : f ∈ addNodeFormulasU infos noSlicing u) :
    f ∈ benchmark noSlicing infos := by
  rw [benchmark, List.mem_flatMap]
  exact ⟨u, hu, by rw [if_pos ⟨hc, hl⟩]; exact hf⟩

theorem negS_mem_addNodeFormulasU (noSlicing : Bool) (infos : List URec) (u : URec)
    (href : u.isRefutation = true) :
    SMTForm.neg (pred .S u.uid) ∈ addNodeFormulasU infos noSlicing u := by
  rw [addNodeFormulasU]
  simp only [href, Bool.or_true, if_true, List.mem_append]
  exact Or.inl (Or.inl (Or.inl (Or.inr (List.mem_singleton.mpr rfl))))

/-- Claim C2: in any model of the benchmark, the refutation unit is not
sliced off (the encoding adds `¬S(refutation)`), and `collectSlicedOffNodes`
returns exactly the transparent leads-to-color units whose `S` constant is
assigned true. -/
theorem c2_slicing_safety (noSlicing : Bool) (infos : List URec) (v : SMTConst → Bool)
    (hsat : ∀ f ∈ benchmark noSlicing infos, f.eval v = true)
    (r : URec) (hr : r ∈ infos) (href : r.isRefutation = true) :
    r ∉ collectSlicedOffNodes infos v ∧
      (∀ u, u ∈ collectSlicedOffNodes infos v ↔
        (u ∈ infos ∧ u.color = .transparent ∧ u.leadsToColor = true ∧ v ⟨.S, u.uid⟩ = true)) := by
  have hcollect : ∀ u, u ∈ collectSlicedOffNodes infos v ↔
      (u ∈ infos ∧ u.color = .transparent ∧ u.leadsToColor = true ∧ v ⟨.S, u.uid⟩ = true) := by
    intro u
    rw [collectSlicedOffNodes, List.mem_filter]
    simp
  refine ⟨?_, hcollect⟩
  intro hmem
  rcases (hcollect r).mp hmem with ⟨_, hc, hl, hs⟩
  have hbench : SMTForm.neg (pred .S r.uid) ∈ benchmark noSlicing infos :=
    mem_benchmark_of_mem_node noSlicing infos r hr hc hl _
      (negS_mem_addNodeFormulasU noSlicing infos r href)
  have heval := hsat _ hbench
  simp only [SMTForm.eval, pred, hs, Bool.not_true] at heval
  exact Bool.noConfusion heval

/-- Witness for C2: the one-unit refutation benchmark is satisfied by the
grey not-sliced assignment, under which nothing is sliced off. -/
theorem c2_slicing_safety_witness :
    (⟨0, .transparent, .transparent, true, true, false, false, [], [], false, false, [0]⟩ : URec)
      ∉ collectSlicedOffNodes wC2infos wC2v :=
  (c2_slicing_safety false wC2infos wC2v (by decide)
    ⟨0, .transparent, .transparent, true, true, false, false, [], [], false, false, [0]⟩
    (by decide) rfl).1

/-- Claim C4: when the external minimization returns `FAIL`, `getInterpolant`
emits the warning and still returns the interpolant generated from the empty
sliced-off set — the same interpolant the optimal path would produce were
the model to slice nothing — and the failure does not escape the function. -/
theorem c4_fail_fallback {α : Type} (interpolantGen : List URec → α)
    (infos : List URec) (v : SMTConst → Bool) :
    getInterpolantMain interpolantGen infos .fail v = (interpolantGen [], [failWarning]) ∧
      (getInterpolantMain interpolantGen infos .fail v).1
        = (getInterpolantMain interpolantGen infos .optimal (fun _ => false)).1 := by
  constructor
  · rfl
  · have hempty : collectSlicedOffNodes infos (fun _ => false) = [] := by
      rw [collectSlicedOffNodes, List.filter_eq_nil_iff]
      intro u _
      simp
    rw [getInterpolantMain, getInterpolantMain, hempty]

end Vampire

namespace Vampire

theorem fringe_mem_addNodeFormulasU (noSlicing : Bool) (infos : List URec) (u : URec)
    (hleaf : u.inputInheritedColor = .transparent)
    (f : SMTForm) (hf : f ∈ addFringeFormulas u) :
    f ∈ addNodeFormulasU infos noSlicing u := by
  simp [addNodeFormulasU, hleaf, hf]

/-- Claim C7, amended: for a transparent on-path unit that is not a leaf
with inherited color, the encoding asserts `¬RF ∧ BF` at the refutation and
otherwise defines `RF(u)` by the equivalence with the conjunction over the
transparent successors — unless the unit has RIGHT-colored successors, in
which case `¬RF(u)` is asserted instead; symmetrically for `BF` with LEFT
successors. -/
theorem c7_fringe_amended (noSlicing : Bool) (infos : List URec) (u : URec)
    (hu : u ∈ infos) (hc : u.color = .transparent) (hl : u.leadsToColor = true)
    (hleaf : u.inputInheritedColor = .transparent) :
    (u.isRefutation = true →
      SMTForm.neg (pred .RF u.uid) ∈ benchmark noSlicing infos ∧
        pred .BF u.uid ∈ benchmark noSlicing infos) ∧
    (u.isRefutation = false → u.hasRightSuccessors = false →
      SMTForm.iffF (pred .RF u.uid) (rfRhsOf u) ∈ benchmark noSlicing infos) ∧
    (u.isRefutation = false → u.hasRightSuccessors = true →
      SMTForm.neg (pred .RF u.uid) ∈ benchmark noSlicing infos) ∧
    (u.isRefutation = false → u.hasLeftSuccessors = false →
      SMTForm.iffF (pred .BF u.uid) (bfRhsOf u) ∈ benchmark noSlicing infos) ∧
    (u.isRefutation = false → u.hasLeftSuccessors = true →
      SMTForm.neg (pred .BF u.uid) ∈ benchmark noSlicing infos) := by
  have base : ∀ f ∈ addFringeFormulas u, f ∈ benchmark noSlicing infos := fun f hf =>
    mem_benchmark_of_mem_node noSlicing infos u hu hc hl f
      (fringe_mem_addNodeFormulasU noSlicing infos u hleaf f hf)
  refine ⟨?_, ?_, ?_, ?_, ?_⟩
  · intro href
    exact ⟨base _ (by simp [addFringeFormulas, href]), base _ (by simp [addFringeFormulas, href])⟩
  · intro href hsucc
    exact base _ (by simp [addFringeFormulas, href, hsucc])
  · intro href hsucc
    exact base _ (by simp [addFringeFormulas, href, hsucc])
  · intro href hsucc
    exact base _ (by simp [addFringeFormulas, href, hsucc])
  · intro href hsucc
    exact base _ (by simp [addFringeFormulas, href, hsucc])

/-- Witness for the amended C7 theorem: in `exC7`, unit 1 is transparent, on
a path to color, has a RIGHT successor, and the benchmark asserts
`¬RF(1)`. -/
theorem c7_fringe_amended_witness :
    SMTForm.neg (pred .RF 1) ∈ benchmark false exC7 :=
  (c7_fringe_amended false exC7
      ⟨1, .transparent, .transparent, true, false, false, true, [0], [], false, true, [1]⟩
      (by decide) rfl rfl rfl).2.2.1 rfl rfl

/-- Counterexample to claim C7 as stated: unit 1 of `exC7` is transparent
and on a path to color, but because it has a RIGHT-colored successor the
encoding asserts `¬RF(1)` and contains no equivalence defining `RF(1)`. -/
theorem c7_counterexample : ¬ C7Statement false exC7 := by decide

end Vampire

namespace VClausify

theorem clausifyLoop_eq_filterMap {Clause : Type} (simplify : Clause → Option Clause)
    (toTPTP : Clause → String) :
    ∀ clauses : List Clause,
      clausifyLoop simplify toTPTP clauses = (clauses.filterMap simplify).map toTPTP := by
  intro clauses
  induction clauses with
  | nil => rfl
  | cons cl rest ih =>
    rw [clausifyLoop, List.filterMap_cons]
    cases h : simplify cl with
    | none => rw [ih]
    | some c => rw [List.map_cons, ih]

theorem clausifyLoop_line_shape {Clause : Type} (simplify : Clause → Option Clause)
    (toTPTP : Clause → String) :
    ∀ (clauses : List Clause) (line : String), line ∈ clausifyLoop simplify toTPTP clauses →
      ∃ cl, line = toTPTP cl := by
  intro clauses
  induction clauses with
  | nil => intro line h; exact absurd h (List.not_mem_nil _)
  | cons cl rest ih =>
    intro line h
    rw [clausifyLoop] at h
    cases hs : simplify cl with
    | none => rw [hs] at h; exact ih line h
    | some c =>
      rw [hs, List.mem_cons] at h
      rcases h with h | h
      · exact ⟨c, h⟩
      · exact ih line h

/-- Claim C9: the clausify entry point exits with code 0 exactly when the
mode is clausify and clausification ran to completion (all clauses were
output); every other path — a user error such as a non-clausify mode, or any
caught exception — exits with code 1; and on success every output line is
the TPTP serialization of some clause. -/
theorem c9_exit_codes {Clause : Type} (mode : VMode) (outcome : RunOutcome Clause)
    (dup taut triv : Clause → Option Clause) (toTPTP : Clause → String) :
    ((vclausifyMain mode outcome dup taut triv toTPTP).1 = 0 ↔
      (mode = .clausify ∧ ∃ cls, outcome = .ok cls)) ∧
    ((vclausifyMain mode outcome dup taut triv toTPTP).1 = 0 ∨
      (vclausifyMain mode outcome dup taut triv toTPTP).1 = 1) ∧
    (∀ cls, mode = .clausify → outcome = .ok cls →
      ∀ line ∈ (vclausifyMain mode outcome dup taut triv toTPTP).2,
        ∃ cl, line = toTPTP cl) := by
  refine ⟨?_, ?_, ?_⟩
  · cases mode with
    | clausify =>
      cases outcome with
      | ok cls => simp [vclausifyMain]
      | exc e => simp [vclausifyMain]
    | other => simp [vclausifyMain]
  · cases mode with
    | clausify =>
      cases outcome with
      | ok cls => simp [vclausifyMain]
      | exc e => simp [vclausifyMain]
    | other => simp [vclausifyMain]
  · intro cls hmode houtcome line hline
    subst hmode
    subst houtcome
    simp only [vclausifyMain, ne_eq, not_true_eq_false, if_false] at hline
    exact clausifyLoop_line_shape _ toTPTP cls line hline

/-- Witness for C9: a successful clausify run of one clause exits 0. -/
theorem c9_exit_codes_witness :
    (vclausifyMain .clausify (.ok [5]) (fun n : Nat => some n) some some
        (fun n => toString n)).1 = 0 :=
  (c9_exit_codes .clausify (.ok [5]) (fun n : Nat => some n) some some
      (fun n => toString n)).1.mpr ⟨rfl, [5], rfl⟩

/-- Claim C10: the clauses printed by clausify mode are exactly the
survivors of the immediate-simplification pipeline (duplicate-literal
removal, tautology deletion, trivial-inequality removal composed in
sequence), serialized; a clause the pipeline deletes contributes no output
line. -/
theorem c10_simplification_pipeline {Clause : Type}
    (dup taut triv : Clause → Option Clause) (toTPTP : Clause → String)
    (clauses : List Clause) :
    clausifyModeOutput dup taut triv toTPTP clauses
        = (clauses.filterMap (compositeSimplify dup taut triv)).map toTPTP ∧
    (∀ cl rest, compositeSimplify dup taut triv cl = none →
      clausifyLoop (compositeSimplify dup taut triv) toTPTP (cl :: rest)
        = clausifyLoop (compositeSimplify dup taut triv) toTPTP rest) := by
  constructor
  · exact clausifyLoop_eq_filterMap _ toTPTP clauses
  · intro cl rest h
    rw [clausifyLoop, h]

/-- Witness for C10: a clause deleted by the pipeline (here by tautology
deletion) produces no output. -/
theorem c10_simplification_pipeline_witness :
    clausifyModeOutput (fun n : Nat => some n) (fun _ => none) some
      (fun n => toString n) [5] = [] :=
  ((c10_simplification_pipeline (fun n : Nat => some n) (fun _ => none) some
      (fun n => toString n) [5]).1).trans (by rfl)

end VClausify

namespace Uwa

/-- Counterexample to claim C1 as stated: under policy AC1 the pair
`f2(x, a+x)` and `f2(c, b+a)` unifies with residual constraint `c ≠ b` when
`run_fixed_point = false`, but the same call with `run_fixed_point = true`
fails: the fixed-point pass cannot re-unify the two distinct uninterpreted
constants.  This is the repository's own expectation
(`over_approx_test_2_bad_AC1` versus
`over_approx_test_2_bad_AC1_fixedPointIteration`). -/
theorem c1_counterexample :
    (absUnify .ac1 false c1L c1R).isSome = true ∧ absUnify .ac1 true c1L c1R = none := by
  exact ⟨by decide, by decide⟩

/-- Claim C1, amended: the fixed-point pass re-unifies each residual
constraint under the grown substitution; it can turn a successful
unification into a failure when some residual constraint's sides cannot be
re-unified under the policy (the `c ≠ b` residue of `f2(x, a+x)` against
`f2(c, b+a)` under AC1), and when every residue can be re-unified it returns
a unifier in which each constraint is eliminated or refined (the
`b+c ≠ c+b` residue of `f2(f2(y,x), a+y+x)` against `f2(f2(b,c), c+b+a)` is
eliminated, leaving the empty constraint set). -/
theorem c1_fixed_point_amended :
    ((runRobUnify .ac1 false c1L c1R).map URes.constraints
        = some [(.cst 2, .cst 1)]) ∧
    runRobUnify .ac1 true c1L c1R = none ∧
    ((runRobUnify .ac1 false c1L2 c1R2).map URes.constraints
        = some [(.add (.cst 1) (.cst 2), .add (.cst 2) (.cst 1))]) ∧
    ((runRobUnify .ac1 true c1L2 c1R2).map URes.constraints = some []) := by
  exact ⟨by decide, by decide, by decide, by decide⟩

/-- Claim C5: under `ONE_INTERP` without fixed-point iteration, querying the
index `{1+1, 1+a}` with `b+2` yields exactly the two results
`(2+b, 1+a, {1+a ≠ 2+b})` and `(2+b, 1+1, {2+b ≠ 1+1})`, compared — as the
repository's test harness does — up to result order, AC of `+`, and
constraint orientation. -/
theorem c5_retrieval_s3 :
    permEqBy uresEq (retrieveUnifiable .oneInterp false s3Index s3Query) s3Expected = true := by
  decide

/-- Counterexample to claim C6 as stated: returning none is not equivalent
to the absence of a policy-permitted extension.  Under `ONE_INTERP` the pair
`x + 1` against `x` fails the occurs check — the spec's own list of none
cases — so `unify` returns none, yet the pair is unifiable under a permitted
extension: the empty substitution together with the residual constraint set
`{x + 1 ≠ x}` (whose left root is interpreted, hence permitted) makes the
two sides equal modulo the constraints. -/
theorem c6_counterexample :
    absUnify .oneInterp false (.add (.var 0 0) (.num 1)) (.var 0 0) = none ∧
      ExtUnifiableOneInterp (.add (.var 0 0) (.num 1)) (.var 0 0) := by
  constructor
  · decide
  · refine ⟨[], [(.add (.var 0 0) (.num 1), .var 0 0)], ?_, ?_⟩
    · intro p hp
      rw [List.mem_singleton] at hp
      subst hp
      exact Or.inl rfl
    · have h1 : applyS [] bigFuel (Trm.add (.var 0 0) (.num 1)) = .add (.var 0 0) (.num 1) := by
        decide
      have h2 : applyS [] bigFuel (Trm.var 0 0) = .var 0 0 := by decide
      rw [h1, h2]
      exact EqMod.constr (List.mem_singleton.mpr rfl)

/-- Claim C6, amended: returning none does not characterize the pairs that
are unifiable under no extension permitted by the policy — the engine also
returns none when its syntactic search fails although a permitted extension
exists (the occurs-check pair `x` against `x + 1`).  What holds is the
claim's exhibited class and instances: under `ONE_INTERP`, two terms with
clashing uninterpreted head symbols yield none and are unifiable under no
permitted extension — both directions, in full generality — and in
particular `f(a)` against `g(1+a)` yields none, and querying the index
`{f(1+1), f(1+a)}` with `g(x)` yields the empty result list. -/
theorem c6_none_on_clash :
    (∀ (fixp : Bool) (f g : Nat) (s t : Trm), f ≠ g →
      absUnify .oneInterp fixp (.app1 f s) (.app1 g t) = none ∧
        ¬ ExtUnifiableOneInterp (.app1 f s) (.app1 g t)) ∧
    absUnify .oneInterp false (.app1 10 (.cst 0)) (.app1 11 (.add (.num 1) (.cst 0))) = none ∧
    retrieveUnifiable .oneInterp false s2Index s2Query = [] := by
  refine ⟨?_, by decide, by decide⟩
  intro fixp f g s t hfg
  constructor
  · have hne : (Trm.app1 f s) ≠ (Trm.app1 g t) := by
      intro h; injection h with h1 _; exact hfg h1
    have hgo : unifyGo .oneInterp bigFuel [((Trm.app1 f s), (Trm.app1 g t))] ⟨[], []⟩ = none := by
      show unifyGo .oneInterp (63 + 1) _ _ = none
      simp [unifyGo, derefTop, interpTop, hne, hfg]
    rw [absUnify, hgo]
  · rintro ⟨σ, C, hperm, heq⟩
    have h1 : applyS σ bigFuel (.app1 f s) = .app1 f (applyS σ 63 s) := rfl
    have h2 : applyS σ bigFuel (.app1 g t) = .app1 g (applyS σ 63 t) := rfl
    rw [h1, h2] at heq
    generalize applyS σ 63 s = X at heq
    generalize applyS σ 63 t = Y at heq
    cases heq with
    | refl => exact hfg rfl
    | constr h =>
      have := hperm _ h
      simp [PermittedOneInterp, interpTop] at this
    | constrR h =>
      have := hperm _ h
      simp [PermittedOneInterp, interpTop] at this
    | app1 hab => exact hfg rfl

/-- Witness for C6: the clashing uninterpreted heads `f` and `g` of the
claim's example, instantiated concretely. -/
theorem c6_none_on_clash_witness :
    absUnify .oneInterp false (.app1 10 (.cst 0)) (.app1 11 (.cst 0)) = none ∧
      ¬ ExtUnifiableOneInterp (.app1 10 (.cst 0)) (.app1 11 (.cst 0)) :=
  c6_none_on_clash.1 false 10 11 (.cst 0) (.cst 0) (by decide)

end Uwa
